import Mathlib

/-!
Verification of the scitoolhub scoring pipeline.

This file gives a shallow embedding, in Lean 4, of the scoring core of the
repository:

* `src/score_tools.py` (v1 scorer): `_log1p_safe`, `_minmax_scale`,
  `_normalize_series`, `parse_weights`, and the staleness fill inside
  `score_dataframe`.
* `src/score_tools_v2.py` (v2 scorer): `readme_score` / `_readme_score`,
  `detect_domain` / `_detect_domain`, `_minmax`, `_normalize_series`,
  the median fills, the domain-weight table and the `composite_v2`
  formula of `compute_scores`.
* `final/merge_scores_with_bench.py`: `load_bench` and the fusion logic of
  `main` (pass score, latency score, bench score, left merge, final score).

Modelling conventions: Python floats are modelled as rationals (the real
numbers for the one transcendental step, `np.log1p`); pandas nullable cells
are `Option` values (`none` is NaN); DataFrame columns are lists aligned by
index; Python dicts are association lists in insertion order.  Network and
filesystem reads (README fetching, CI scanning) are external collaborators:
their results enter the model as inputs (the fetched README text per row).
-/

/-! ### Python string primitives

Python strings are sequences of characters; the pipeline only ever applies
`lower`, `strip`, `split`, slicing, containment and prefix tests to them.
The core `String` functions of Lean are position-based and do not reduce
well inside the kernel, so the embedding works on the underlying character
list instead.
-/

/-- Python `str.lower()` (the source only ever lowercases ASCII keywords). -/
def pyLower (s : String) : String := ⟨s.data.map Char.toLower⟩

/-- Python whitespace, as used by `str.strip()` and the regex class. -/
def pyIsSpace (c : Char) : Bool :=
  c = ' ' || c = '\t' || c = '\n' || c = '\x0d' || c = '\x0b' || c = '\x0c'

/-- Python `str.strip()`: drop whitespace from both ends. -/
def pyStrip (s : String) : String :=
  ⟨((s.data.dropWhile pyIsSpace).reverse.dropWhile pyIsSpace).reverse⟩

/-- Python `s[:n]`: the first `n` characters. -/
def pyTake (n : ℕ) (s : String) : String := ⟨s.data.take n⟩

/-- Python `sep in s` for a one-character separator. -/
def containsChar (s : String) (c : Char) : Bool := s.data.any (· = c)

/-- Python `s.split(sep)` for a one-character separator: always returns at
least one (possibly empty) piece. -/
def splitOnChar (sep : Char) : List Char → List (List Char)
  | [] => [[]]
  | c :: rest =>
    let r := splitOnChar sep rest
    if c = sep then [] :: r
    else match r with
      | [] => [[c]]
      | piece :: more => (c :: piece) :: more

/-- Python `needle in hay` (substring containment). -/
def substrB (needle hay : String) : Bool :=
  hay.data.tails.any (fun t => needle.data.isPrefixOf t)

/-! ### Shared numeric helpers -/

/-- Pandas `Series.median()` over the non-missing values: sort, then take the
middle element (odd length) or the mean of the two middle elements (even
length). -/
def median (l : List ℚ) : ℚ :=
  let s := l.insertionSort (fun a b => a ≤ b)
  let n := l.length
  if n % 2 = 1 then s.getD (n / 2) 0
  else (s.getD (n / 2 - 1) 0 + s.getD (n / 2) 0) / 2

/-- Core of min-max scaling for a non-empty column `x :: rest` (the inputs
are always NaN-free at the call sites, so `np.nanmin` / `np.nanmax` /
pandas `min` / `max` are the plain minimum and maximum and are always
finite): if the maximum equals the minimum the output is all zeros,
otherwise each value is rescaled to `(y - lo) / (hi - lo)`. -/
def minmaxCore {α : Type} [LinearOrderedField α] (x : α) (rest : List α) : List α :=
  if rest.foldl max x = rest.foldl min x then List.replicate (rest.length + 1) 0
  else (x :: rest).map (fun y => (y - rest.foldl min x) / (rest.foldl max x - rest.foldl min x))

/-- The v1 `_minmax_scale`: on an empty column `np.nanmin` raises
`ValueError` (zero-size reduction), modelled as `none`; otherwise the scaled
column. -/
def minmaxScale {α : Type} [LinearOrderedField α] (xs : List α) : Option (List α) :=
  match xs with
  | [] => none
  | x :: rest => some (minmaxCore x rest)

/-- Python dict lookup on an association list (first entry wins; the dicts
built below never hold duplicate keys). -/
def lookupW (d : List (String × ℚ)) (k : String) : Option ℚ :=
  (d.find? (fun p => p.1 == k)).map Prod.snd

/-- Python `d[k] = v` on a dict in insertion order: replace in place if the
key exists, otherwise append. -/
def dictInsert : List (String × ℚ) → String → ℚ → List (String × ℚ)
  | [], k, v => [(k, v)]
  | p :: rest, k, v => if p.1 = k then (k, v) :: rest else p :: dictInsert rest k v

/-- Python `d.setdefault(k, v)`: keep the existing entry, otherwise append. -/
def dictSetdefault : List (String × ℚ) → String → ℚ → List (String × ℚ)
  | [], k, v => [(k, v)]
  | p :: rest, k, v => if p.1 = k then p :: rest else p :: dictSetdefault rest k v

/-! ### score_tools.py (v1 scorer) -/

namespace ScoreTools

/-- Column ingestion of `_normalize_series`: `pd.to_numeric(s,
errors="coerce").fillna(0)` — missing cells become 0. -/
def fillna0 (s : List (Option ℚ)) : List ℚ := s.map (fun o => o.getD 0)

/-- The v1 `_log1p_safe` on one cell: `np.log1p(np.maximum(x, 0))`, the
float transcendental modelled over the reals. -/
noncomputable def log1p_safe (x : ℝ) : ℝ := Real.log (1 + max x 0)

/-- The v1 `_normalize_series(s, method)`: fill missing cells with 0, then
min-max scale either the `log1p`-transformed column (method
`"log1p_minmax"`) or the raw column (method `"minmax"`, and any other
method string, per the final `else` branch).  `none` is the `ValueError`
that `np.nanmin` raises on a zero-length column. -/
noncomputable def normalize_series (method : String) (s : List (Option ℚ)) : Option (List ℝ) :=
  if method = "log1p_minmax" then
    minmaxScale ((fillna0 s).map (fun q : ℚ => log1p_safe (q : ℝ)))
  else if method = "minmax" then minmaxScale ((fillna0 s).map (fun q : ℚ => (q : ℝ)))
  else minmaxScale ((fillna0 s).map (fun q : ℚ => (q : ℝ)))

/-- The default weight dict of `parse_weights`, in insertion order. -/
def default_weights : List (String × ℚ) :=
  [("stars", 0.25), ("commits", 0.25), ("contributors", 0.25),
   ("issues", 0.15), ("staleness", 0.10)]

/-- The merge step of `parse_weights`: the parsed overrides build the dict
`out`, then every default key absent from it is added with `setdefault`.
The input models the successfully parsed `key=float` pairs of the CLI
string (entries without `=` or with unparseable floats are skipped by the
source before this point). -/
def merged_weights (ov : List (String × ℚ)) : List (String × ℚ) :=
  default_weights.foldl (fun d p => dictSetdefault d p.1 p.2)
    (ov.foldl (fun d p => dictInsert d p.1 p.2) [])

/-- The v1 `parse_weights` after parsing: merge with defaults, then divide
every weight by `sum(out.values()) or 1.0` — a zero total is replaced by
the divisor 1.0. -/
def parse_weights (ov : List (String × ℚ)) : List (String × ℚ) :=
  let out := merged_weights ov
  let tot := if (out.map Prod.snd).sum = 0 then 1 else (out.map Prod.snd).sum
  out.map (fun p => (p.1, p.2 / tot))

/-- The staleness fill inside the v1 `score_dataframe` (line 193):
`fillna` with the column median.  When every value is missing the median is
NaN and `fillna(NaN)` is a no-op, so the column is returned unchanged; the
literal 180 in the source sits in a dead branch (it is selected only when
the column is absent, but evaluating the column would already have raised
`KeyError` in that case). -/
def stale_fill (s : List (Option ℚ)) : List (Option ℚ) :=
  match s.filterMap id with
  | [] => s
  | q :: qs => s.map (fun o => some (o.getD (median (q :: qs))))

end ScoreTools

/-! ### score_tools_v2.py (v2 scorer) -/

namespace ScoreToolsV2

/-- The `_to_num(s, 0)` column path of v2: `pd.to_numeric(s,
errors="coerce").fillna(0)`. -/
def toNum0 (s : List (Option ℚ)) : List ℚ := s.map (fun o => o.getD 0)

/-- The v2 `_minmax`: pandas `min`/`max` with `skipna=True` over a NaN-free
column are not finite exactly when the column is empty, in which case the
result is `np.zeros(0) = []`; otherwise the usual min-max scaling with the
all-zero degenerate case. -/
def minmaxV2 (xs : List ℚ) : List ℚ :=
  match xs with
  | [] => []
  | x :: rest => minmaxCore x rest

/-- The v2 `_normalize_series`: fill missing with 0, then `_minmax`. -/
def normalize_series_v2 (s : List (Option ℚ)) : List ℚ := minmaxV2 (toNum0 s)

/-- The v2 fill pattern `s.fillna(med if np.isfinite(med) else dflt)` where
`med = s.median(skipna=True)`: the median over the non-missing values is
NaN (not finite) exactly when every value is missing, in which case the
fixed default is used instead. -/
def fillMedianOr (dflt : ℚ) (s : List (Option ℚ)) : List ℚ :=
  let m := match s.filterMap id with
    | [] => dflt
    | q :: qs => median (q :: qs)
  s.map (fun o => o.getD m)

/-- Keyword lists of `detect_domain` / `_detect_domain` (identical in both
copies), in source order. -/
def bioKeywords : List String := ["protein", "genome", "rna", "dna", "sequence", "bio"]

def chemKeywords : List String := ["molecule", "chem", "drug", "compound", "binding"]

def materialKeywords : List String := ["material", "crystal", "alloy", "polymer"]

def mlKeywords : List String := ["deep", "model", "ai", "ml", "graph", "transformer"]

/-- The v2 `detect_domain` (module level) and `_detect_domain` (inside
`compute_scores`); the two bodies are identical: lowercase the text, then
first-match-wins over bio, chem, material, ml, defaulting to "other". -/
def detect_domain (text : String) : String :=
  if bioKeywords.any (fun k => substrB k (pyLower text)) then "bio"
  else if chemKeywords.any (fun k => substrB k (pyLower text)) then "chem"
  else if materialKeywords.any (fun k => substrB k (pyLower text)) then "material"
  else if mlKeywords.any (fun k => substrB k (pyLower text)) then "ml"
  else "other"

/-- Count of `re.findall(r"^#+", text, re.M)` matches: one per line whose
first character is `#`. -/
def countHeadings (text : String) : ℕ :=
  ((splitOnChar '\n' text.data).filter (fun l => ("#".data).isPrefixOf l)).length

/-- The module-level v2 `readme_score`: length, section, install and
citation sub-signals, weighted 0.4/0.3/0.2/0.1, capped at 1. -/
def readme_score (readmeText : String) : ℚ :=
  min (0.4 * min ((readmeText.data.length : ℚ) / 5000) 1
    + 0.3 * ((countHeadings readmeText : ℚ) / 10)
    + 0.2 * (if substrB "pip install" (pyLower readmeText)
        || substrB "conda install" (pyLower readmeText)
        || substrB "requirements.txt" (pyLower readmeText) then 1 else 0.3)
    + 0.1 * (if substrB "citation" (pyLower readmeText)
        || substrB "doi" (pyLower readmeText) then 1 else 0.2)) 1

/-- Matches the `\s+install` tail of the regex `(pip|conda)\s+install`:
one or more whitespace characters followed by the literal `install`. -/
def wsThenInstall : List Char → Bool
  | [] => false
  | c :: rest => pyIsSpace c && (("install".data).isPrefixOf rest || wsThenInstall rest)

/-- The install pattern of the inner `_readme_score`:
`(pip|conda)\s+install|requirements\.txt` searched anywhere in the text. -/
def installPatternV2 (t : String) : Bool :=
  t.data.tails.any (fun tl =>
    (("pip".data).isPrefixOf tl && wsThenInstall (tl.drop 3)) ||
    (("conda".data).isPrefixOf tl && wsThenInstall (tl.drop 5))) ||
  substrB "requirements.txt" t

/-- The inner `_readme_score` of `compute_scores`: same shape as the
module-level scorer, with the regex install pattern and a final
clamp `min(max(total, 0.0), 1.0)`. -/
def readme_score_inner (text : String) : ℚ :=
  min (max (0.4 * min ((text.data.length : ℚ) / 5000) 1
    + 0.3 * ((countHeadings text : ℚ) / 10)
    + 0.2 * (if installPatternV2 (pyLower text) then 1 else 0.3)
    + 0.1 * (if substrB "citation" (pyLower text)
        || substrB "doi" (pyLower text) then 1 else 0.2)) 0) 1

/-- One input row of `compute_scores` after the column-unification steps:
the canonical columns (`stars`, `commits_window`, `contributors`,
`issue_resolution_rate`, `days_since_last_update`) with per-cell
missingness, plus the free text fields.  `readmeText` is the result of the
external `_fetch_readme_online` collaborator for this row (the empty
string on fetch failure). -/
structure RowV2 where
  repo : String
  description : String
  readmeText : String
  stars : Option ℚ
  commitsWindow : Option ℚ
  contributors : Option ℚ
  issueResolutionRate : Option ℚ
  daysSinceLastUpdate : Option ℚ
deriving DecidableEq

/-- Column `stars_n`. -/
def starsN (rows : List RowV2) : List ℚ := normalize_series_v2 (rows.map (·.stars))

/-- Column `commits_n`. -/
def commitsN (rows : List RowV2) : List ℚ := normalize_series_v2 (rows.map (·.commitsWindow))

/-- Column `contributors_n`. -/
def contributorsN (rows : List RowV2) : List ℚ := normalize_series_v2 (rows.map (·.contributors))

/-- Column `issues_n`: the resolution rate, missing filled with the median
(0.5 when the whole column is missing), then `_minmax`. -/
def issuesN (rows : List RowV2) : List ℚ :=
  minmaxV2 (fillMedianOr 0.5 (rows.map (·.issueResolutionRate)))

/-- Column `staleness_n`: days since last update, missing filled with the
median (180 when the whole column is missing), min-max scaled and
inverted. -/
def stalenessN (rows : List RowV2) : List ℚ :=
  (minmaxV2 (fillMedianOr 180 (rows.map (·.daysSinceLastUpdate)))).map (fun x => 1 - x)

/-- Per-row `readme_score` column: rows whose stripped repo name is empty
are skipped by the fetch loop and keep the initialisation value 0.0. -/
def rowReadmeScore (r : RowV2) : ℚ :=
  if pyStrip r.repo = "" then 0 else readme_score_inner r.readmeText

/-- Per-row `domain` column: skipped rows keep "other"; otherwise
`_detect_domain` runs on the description joined with the first 500 README
characters. -/
def rowDomain (r : RowV2) : String :=
  if pyStrip r.repo = "" then "other"
  else detect_domain (r.description ++ " " ++ pyTake 500 r.readmeText)

/-- Column `readme_score`. -/
def readmeScores (rows : List RowV2) : List ℚ := rows.map rowReadmeScore

/-- Column `domain`. -/
def domains (rows : List RowV2) : List String := rows.map rowDomain

/-- Column `ci_test_score`: kept 0.0 throughout `compute_scores` (no local
repository is available in this path). -/
def ciScores (rows : List RowV2) : List ℚ := List.replicate rows.length 0

/-- The fixed `domain_weights` dict of `compute_scores`. -/
def domainWeightPairs : List (String × ℚ) :=
  [("bio", 1.0), ("chem", 0.95), ("material", 0.9), ("ml", 1.05), ("other", 1.0)]

/-- The `df["domain"].map(domain_weights).fillna(1.0)` step: unmapped
labels weigh 1.0. -/
def domainWeight (d : String) : ℚ := (lookupW domainWeightPairs d).getD 1

/-- One row of the scored output frame: the computed columns kept by the
model. -/
structure ScoredRow where
  repo : String
  stars_n : ℚ
  commits_n : ℚ
  contributors_n : ℚ
  issues_n : ℚ
  staleness_n : ℚ
  readme_score : ℚ
  ci_test_score : ℚ
  domain : String
  domain_weight : ℚ
  composite_v2 : ℚ
deriving DecidableEq

/-- Row `i` of the scored frame before sorting: the per-row view of the
columnwise assignments of `compute_scores`, including the `composite_v2`
formula. -/
def scoredOf (rows : List RowV2) (i : ℕ) : ScoredRow :=
  { repo := (rows.map (·.repo)).getD i ""
    stars_n := (starsN rows).getD i 0
    commits_n := (commitsN rows).getD i 0
    contributors_n := (contributorsN rows).getD i 0
    issues_n := (issuesN rows).getD i 0
    staleness_n := (stalenessN rows).getD i 0
    readme_score := (readmeScores rows).getD i 0
    ci_test_score := (ciScores rows).getD i 0
    domain := (domains rows).getD i "other"
    domain_weight := domainWeight ((domains rows).getD i "other")
    composite_v2 :=
      (0.20 * (starsN rows).getD i 0
        + 0.15 * (commitsN rows).getD i 0
        + 0.15 * (contributorsN rows).getD i 0
        + 0.10 * (issuesN rows).getD i 0
        + 0.10 * (stalenessN rows).getD i 0
        + 0.15 * (readmeScores rows).getD i 0
        + 0.15 * (ciScores rows).getD i 0)
      * domainWeight ((domains rows).getD i "other") }

/-- The scoring core of `compute_scores`: build every row, then
`sort_values("composite_v2", ascending=False)` (modelled by a
comparison sort on the same key; the theorems below only use that the
output is a permutation of the rows). -/
def compute_scores (rows : List RowV2) : List ScoredRow :=
  ((List.range rows.length).map (scoredOf rows)).insertionSort
    (fun a b => b.composite_v2 ≤ a.composite_v2)

end ScoreToolsV2

/-! ### final/merge_scores_with_bench.py -/

namespace MergeBench

/-- One record of `benchmark_results.json` as consumed by `load_bench`:
each field may be absent (`it.get(...)` returns `None`). -/
structure BenchItem where
  name : String
  passed : Option Bool
  skipped : Option Bool
  elapsed_s : Option ℚ
deriving DecidableEq

/-- One row of the frame built by `load_bench`. -/
structure BenchRow where
  name : String
  passed : Option Bool
  skipped : Bool
  elapsed_s : Option ℚ
deriving DecidableEq

/-- The per-item body of `load_bench`:
`passed = bool(it.get("passed")) if it.get("skipped") is False else None`
(the identity test with `False` fails both for `True` and for a missing
field), and `skipped = bool(it.get("skipped"))` (`bool(None) = False`). -/
def loadOne (it : BenchItem) : BenchRow :=
  { name := pyStrip it.name
    passed := if it.skipped = some false then some (it.passed.getD false) else none
    skipped := it.skipped.getD false
    elapsed_s := it.elapsed_s }

/-- The `load_bench` frame. -/
def load_bench (items : List BenchItem) : List BenchRow := items.map loadOne

/-- The hardcoded alias map applied to benchmark names. -/
def aliasGet (n : String) : String :=
  if n = "biopython" then "Bio"
  else if n = "mdanalysis" then "MDAnalysis"
  else if n = "scikit-bio" then "skbio" else n

/-- Join key of a benchmark row: `alias.get(x, x).lower()`. -/
def benchKey (n : String) : String := pyLower (aliasGet n)

/-- Join key of a candidate: the last `/`-separated segment of the repo
name, lower-cased (`repo.split("/")[-1].lower()`), or the whole name
lower-cased when it has no slash. -/
def repo_to_key (repo : String) : String :=
  if containsChar repo '/' then pyLower ⟨(splitOnChar '/' repo.data).getLastD []⟩
  else pyLower repo

/-- The non-skipped pool `bx = b[b["skipped"] == False]`. -/
def nonSkipped (b : List BenchRow) : List BenchRow := b.filter (fun r => r.skipped == false)

/-- Row pass score: `1.0 if v else 0.0` — `None` and `False` are both
falsy, so only a literal `True` scores 1. -/
def pass_score (r : BenchRow) : ℚ := if r.passed = some true then 1 else 0

/-- Pandas `max` with `skipna=True` over an optional column (NaN exactly on
the empty list). -/
def maxQ : List ℚ → Option ℚ
  | [] => none
  | x :: rest => some (rest.foldl max x)

/-- Pandas `min` with `skipna=True`. -/
def minQ : List ℚ → Option ℚ
  | [] => none
  | x :: rest => some (rest.foldl min x)

/-- The latency block of `main`: fill missing elapsed times with the
column maximum (a no-op when every elapsed time is missing, since the
maximum is then NaN), then, when the filled column is non-empty with a
positive maximum, score `1 - (lat - min) / (max - min if max > min else 1)`;
otherwise every latency score is the scalar 0.0. -/
def latency_scores (bx : List BenchRow) : List ℚ :=
  let m := maxQ (bx.filterMap (·.elapsed_s))
  let lat : List (Option ℚ) := bx.map (fun r => (r.elapsed_s).orElse (fun _ => m))
  match maxQ (lat.filterMap id) with
  | some M =>
    if 0 < M then
      let mn := (minQ (lat.filterMap id)).getD M
      lat.map (fun o => 1 - (o.getD M - mn) / (if mn < M then M - mn else 1))
    else List.replicate bx.length 0
  | none => List.replicate bx.length 0

/-- The per-row `(key, bench_score)` pairs of the non-skipped pool:
`bench_score = 0.7 * pass_score + 0.3 * latency_score`. -/
def bench_score_rows (bx : List BenchRow) : List (String × ℚ) :=
  (bx.zip (latency_scores bx)).map
    (fun p => (benchKey p.1.name, 0.7 * pass_score p.1 + 0.3 * p.2))

/-- One candidate row of the ranked CSV. -/
structure Cand where
  repo : String
  composite_v2 : ℚ
deriving DecidableEq

/-- The left merge plus `fillna(0.0)` plus final-score formula for one
candidate: every benchmark row whose key matches duplicates the candidate
(pandas left-merge semantics); a candidate with no match gets the single
filled value `bench_score = 0.0`.  Output triples are
`(repo, bench_score, final_score)` with
`final_score = alpha * composite_v2 + beta * bench_score`. -/
def fuseOne (alpha beta : ℚ) (scored : List (String × ℚ)) (c : Cand) :
    List (String × ℚ × ℚ) :=
  let ms := (scored.filter (fun p => p.1 == repo_to_key c.repo)).map Prod.snd
  let bs := if ms.isEmpty then [(0 : ℚ)] else ms
  bs.map (fun b => (c.repo, b, alpha * c.composite_v2 + beta * b))

/-- Default `--alpha_repo`. -/
def alpha_repo_default : ℚ := 0.7

/-- Default `--beta_bench`. -/
def beta_bench_default : ℚ := 0.3

/-- The whole fusion of `main`: build the non-skipped bench scores, left
merge onto the candidates, compute final scores, sort descending. -/
def merge_with_bench (alpha beta : ℚ) (cands : List Cand) (b : List BenchRow) :
    List (String × ℚ × ℚ) :=
  (cands.flatMap (fuseOne alpha beta (bench_score_rows (nonSkipped b)))).insertionSort
    (fun x y => y.2.2 ≤ x.2.2)

end MergeBench

/-! ### Witness inputs -/

namespace ScoreToolsV2

/-- Witness input row: repository "r" with description "protein", an empty
(failed) README fetch, and every numeric column missing. -/
def rowW : RowV2 :=
  { repo := "r", description := "protein", readmeText := "", stars := none,
    commitsWindow := none, contributors := none, issueResolutionRate := none,
    daysSinceLastUpdate := none }

/-- The scored row that `compute_scores` produces for `rowW`: all minmax
columns collapse to 0, staleness inverts to 1, the empty README scores
2/25, the description classifies as bio (weight 1), and the composite is
0.10·1 + 0.15·(2/25) = 14/125. -/
def scoredW : ScoredRow :=
  { repo := "r", stars_n := 0, commits_n := 0, contributors_n := 0, issues_n := 0,
    staleness_n := 1, readme_score := 2 / 25, ci_test_score := 0, domain := "bio",
    domain_weight := 1, composite_v2 := 14 / 125 }

end ScoreToolsV2

/-- Witness input for the missing-"skipped" case: a record whose JSON has
passed = true and elapsed 2.0 but no "skipped" field. -/
def itemNoSkipped : MergeBench.BenchItem :=
  { name := "toolA", passed := some true, skipped := none, elapsed_s := some 2 }

/-! ### Helper lemmas on folds, maps and dictionaries -/

theorem foldl_min_le_of_mem {α : Type} [LinearOrder α] :
    ∀ (l : List α) (a : α), ∀ y, (y = a ∨ y ∈ l) → l.foldl min a ≤ y := by
  intro l
  induction l with
  | nil =>
    intro a y hy
    rcases hy with rfl | h
    · exact le_refl _
    · cases h
  | cons b t ih =>
    intro a y hy
    have hmin : t.foldl min (min a b) ≤ min a b := ih (min a b) (min a b) (Or.inl rfl)
    rcases hy with rfl | hy
    · exact le_trans hmin (min_le_left _ _)
    · rcases List.mem_cons.mp hy with rfl | hyt
      · exact le_trans hmin (min_le_right _ _)
      · exact ih (min a b) y (Or.inr hyt)

theorem le_foldl_max_of_mem {α : Type} [LinearOrder α] :
    ∀ (l : List α) (a : α), ∀ y, (y = a ∨ y ∈ l) → y ≤ l.foldl max a := by
  intro l
  induction l with
  | nil =>
    intro a y hy
    rcases hy with rfl | h
    · exact le_refl _
    · cases h
  | cons b t ih =>
    intro a y hy
    have hmax : max a b ≤ t.foldl max (max a b) := ih (max a b) (max a b) (Or.inl rfl)
    rcases hy with rfl | hy
    · exact le_trans (le_max_left _ _) hmax
    · rcases List.mem_cons.mp hy with rfl | hyt
      · exact le_trans (le_max_right _ _) hmax
      · exact ih (max a b) y (Or.inr hyt)

theorem foldl_min_const {α : Type} [LinearOrder α] :
    ∀ (l : List α) (c : α), (∀ y ∈ l, y = c) → l.foldl min c = c := by
  intro l
  induction l with
  | nil => intro c _; rfl
  | cons b t ih =>
    intro c h
    have hb : b = c := h b (List.mem_cons_self _ _)
    subst hb
    simp only [List.foldl_cons, min_self]
    exact ih b (fun y hy => h y (List.mem_cons_of_mem _ hy))

theorem foldl_max_const {α : Type} [LinearOrder α] :
    ∀ (l : List α) (c : α), (∀ y ∈ l, y = c) → l.foldl max c = c := by
  intro l
  induction l with
  | nil => intro c _; rfl
  | cons b t ih =>
    intro c h
    have hb : b = c := h b (List.mem_cons_self _ _)
    subst hb
    simp only [List.foldl_cons, max_self]
    exact ih b (fun y hy => h y (List.mem_cons_of_mem _ hy))

theorem map_eq_replicate {β γ : Type} (f : β → γ) (d : γ) :
    ∀ (l : List β), (∀ r ∈ l, f r = d) → l.map f = List.replicate l.length d := by
  intro l
  induction l with
  | nil => intro _; rfl
  | cons b t ih =>
    intro h
    simp only [List.map_cons, List.length_cons, List.replicate_succ]
    rw [h b (List.mem_cons_self _ _), ih (fun r hr => h r (List.mem_cons_of_mem _ hr))]

theorem filterMap_eq_replicate {β γ : Type} (f : β → Option γ) (c : γ) :
    ∀ (l : List β), (∀ r ∈ l, f r = some c) →
    l.filterMap f = List.replicate l.length c := by
  intro l
  induction l with
  | nil => intro _; rfl
  | cons b t ih =>
    intro h
    have hb : f b = some c := h b (List.mem_cons_self _ _)
    simp only [List.filterMap_cons, hb, List.length_cons, List.replicate_succ]
    exact congrArg _ (ih (fun r hr => h r (List.mem_cons_of_mem _ hr)))

/-- All-zero output of the degenerate (constant, non-empty) min-max case. -/
theorem minmaxCore_const {α : Type} [LinearOrderedField α] (x : α) (rest : List α)
    (h : ∀ y ∈ rest, y = x) :
    minmaxCore x rest = List.replicate (rest.length + 1) 0 := by
  have hlo : rest.foldl min x = x := foldl_min_const rest x h
  have hhi : rest.foldl max x = x := foldl_max_const rest x h
  simp [minmaxCore, hlo, hhi]

theorem minmaxScale_const {α : Type} [LinearOrderedField α] (xs : List α) (c : α)
    (hmem : c ∈ xs) (hall : ∀ y ∈ xs, y = c) :
    minmaxScale xs = some (List.replicate xs.length 0) := by
  cases xs with
  | nil => cases hmem
  | cons x rest =>
    have hx : x = c := hall x (List.mem_cons_self _ _)
    subst hx
    have h : ∀ y ∈ rest, y = x := fun y hy => hall y (List.mem_cons_of_mem _ hy)
    simp only [minmaxScale, minmaxCore_const x rest h, List.length_cons]

theorem minmaxCore_length {α : Type} [LinearOrderedField α] (x : α) (rest : List α) :
    (minmaxCore x rest).length = rest.length + 1 := by
  unfold minmaxCore
  split
  · simp
  · simp

theorem minmaxCore_bounds {α : Type} [LinearOrderedField α] (x : α) (rest : List α) :
    ∀ y ∈ minmaxCore x rest, 0 ≤ y ∧ y ≤ 1 := by
  intro y hy
  unfold minmaxCore at hy
  set lo := rest.foldl min x with hlo
  set hi := rest.foldl max x with hhi
  by_cases heq : hi = lo
  · rw [if_pos heq] at hy
    rw [List.eq_of_mem_replicate hy]
    exact ⟨le_refl 0, zero_le_one⟩
  · rw [if_neg heq] at hy
    rcases List.mem_map.mp hy with ⟨z, hz, rfl⟩
    have hzlo : lo ≤ z := by
      rcases List.mem_cons.mp hz with rfl | hz'
      · exact foldl_min_le_of_mem rest z z (Or.inl rfl)
      · exact foldl_min_le_of_mem rest x z (Or.inr hz')
    have hzhi : z ≤ hi := by
      rcases List.mem_cons.mp hz with rfl | hz'
      · exact le_foldl_max_of_mem rest z z (Or.inl rfl)
      · exact le_foldl_max_of_mem rest x z (Or.inr hz')
    have hlohi : lo < hi := lt_of_le_of_ne (le_trans hzlo hzhi) (fun h => heq h.symm)
    have hpos : 0 < hi - lo := sub_pos.mpr hlohi
    constructor
    · exact div_nonneg (sub_nonneg.mpr hzlo) (le_of_lt hpos)
    · rw [div_le_one hpos]
      exact sub_le_sub_right hzhi lo

/-! ### Helper lemmas about the v2 normalizer -/

namespace ScoreToolsV2

theorem minmaxV2_const (l : List ℚ) (c : ℚ) (hc : c ∈ l) (hall : ∀ y ∈ l, y = c) :
    minmaxV2 l = List.replicate l.length 0 := by
  cases l with
  | nil => cases hc
  | cons x rest =>
    have hx : x = c := hall x (List.mem_cons_self _ _)
    subst hx
    have h : ∀ y ∈ rest, y = x := fun y hy => hall y (List.mem_cons_of_mem _ hy)
    simp only [minmaxV2, minmaxCore_const x rest h, List.length_cons]

theorem minmaxV2_length (l : List ℚ) : (minmaxV2 l).length = l.length := by
  cases l with
  | nil => rfl
  | cons x rest => simp only [minmaxV2, minmaxCore_length, List.length_cons]

theorem minmaxV2_bounds (l : List ℚ) : ∀ y ∈ minmaxV2 l, 0 ≤ y ∧ y ≤ 1 := by
  cases l with
  | nil => intro y hy; cases hy
  | cons x rest => exact minmaxCore_bounds x rest

theorem readme_scores_empty_eval :
    readme_score "" = 2 / 25 ∧ readme_score_inner "" = 2 / 25 := by
  have h1 : substrB "pip install" (pyLower "") = false := by decide
  have h2 : substrB "conda install" (pyLower "") = false := by decide
  have h3 : substrB "requirements.txt" (pyLower "") = false := by decide
  have h4 : substrB "citation" (pyLower "") = false := by decide
  have h5 : substrB "doi" (pyLower "") = false := by decide
  have h6 : countHeadings "" = 0 := by decide
  have h7 : installPatternV2 (pyLower "") = false := by decide
  have h8 : ("" : String).data.length = 0 := by decide
  constructor
  · rw [readme_score, h1, h2, h3, h4, h5, h6, h8]
    norm_num
  · rw [readme_score_inner, h7, h4, h5, h6, h8]
    norm_num

end ScoreToolsV2

theorem minmaxScale_nonempty_spec {α : Type} [LinearOrderedField α] (l : List α)
    (h : l ≠ []) :
    ∃ out, minmaxScale l = some out ∧ out.length = l.length ∧
      ∀ y ∈ out, 0 ≤ y ∧ y ≤ 1 := by
  cases l with
  | nil => exact absurd rfl h
  | cons x rest =>
    refine ⟨minmaxCore x rest, rfl, ?_, minmaxCore_bounds x rest⟩
    simp only [minmaxCore_length, List.length_cons]

/-! ### Claim theorems -/

/-- C1, counterexample: the document-quality scorer does not return 0.0 on
the empty README — the install floor (0.3) and citation floor (0.2)
contribute even to empty text. -/
theorem readme_score_empty_ne_zero : ScoreToolsV2.readme_score "" ≠ 0 := by
  rw [ScoreToolsV2.readme_scores_empty_eval.1]
  norm_num

/-- C1, amended: for the empty README (README unavailable or fetch failed)
both document-quality scorers return exactly 0.08 = 2/25 (the weighted
install and citation floors, 0.2·0.3 + 0.1·0.2), and no error. -/
theorem readme_score_empty_value :
    ScoreToolsV2.readme_score "" = 2 / 25 ∧ ScoreToolsV2.readme_score_inner "" = 2 / 25 :=
  ScoreToolsV2.readme_scores_empty_eval

/-- C5: for a column whose values are all equal (all equal after the log
transform, for the log strategy), the plain min-max strategies of both
scorers and the log-scaled min-max strategy of v1 return an all-zero
output of the same length (and in particular neither NaN nor a
divide-by-zero error arises). -/
theorem normalize_const_all_zero :
    ∀ (s : List (Option ℚ)) (c : ℚ) (d : ℝ),
    (c ∈ ScoreTools.fillna0 s → (∀ x ∈ ScoreTools.fillna0 s, x = c) →
      ScoreTools.normalize_series "minmax" s = some (List.replicate s.length 0) ∧
      ScoreToolsV2.normalize_series_v2 s = List.replicate s.length 0) ∧
    (d ∈ (ScoreTools.fillna0 s).map (fun q : ℚ => ScoreTools.log1p_safe (q : ℝ)) →
      (∀ y ∈ (ScoreTools.fillna0 s).map (fun q : ℚ => ScoreTools.log1p_safe (q : ℝ)), y = d) →
      ScoreTools.normalize_series "log1p_minmax" s = some (List.replicate s.length 0)) := by
  intro s c d
  have hlen : (ScoreTools.fillna0 s).length = s.length := List.length_map _ _
  constructor
  · intro hc hall
    constructor
    · have hmem : ((c : ℚ) : ℝ) ∈ (ScoreTools.fillna0 s).map (fun q : ℚ => (q : ℝ)) :=
        List.mem_map.mpr ⟨c, hc, rfl⟩
      have hall2 : ∀ y ∈ (ScoreTools.fillna0 s).map (fun q : ℚ => (q : ℝ)), y = (c : ℝ) := by
        intro y hy
        rcases List.mem_map.mp hy with ⟨q, hq, rfl⟩
        rw [hall q hq]
      have := minmaxScale_const _ _ hmem hall2
      rw [List.length_map, hlen] at this
      exact this
    · have htn : ScoreToolsV2.toNum0 s = ScoreTools.fillna0 s := rfl
      have := ScoreToolsV2.minmaxV2_const (ScoreToolsV2.toNum0 s) c (htn ▸ hc)
        (fun y hy => hall y (htn ▸ hy))
      rw [ScoreToolsV2.normalize_series_v2, this, htn, hlen]
  · intro hd hdall
    have := minmaxScale_const _ _ hd hdall
    rw [List.length_map, hlen] at this
    exact this

/-- C5, witness: the constant column [2, 2] maps to [0, 0] under all three
strategies. -/
theorem normalize_const_all_zero_witness :
    ScoreTools.normalize_series "minmax" [some 2, some 2] = some [0, 0] ∧
    ScoreToolsV2.normalize_series_v2 [some 2, some 2] = [0, 0] ∧
    ScoreTools.normalize_series "log1p_minmax" [some 2, some 2] = some [0, 0] := by
  have h := normalize_const_all_zero [some 2, some 2] 2 (ScoreTools.log1p_safe ((2 : ℚ) : ℝ))
  have hc : (2 : ℚ) ∈ ScoreTools.fillna0 [some 2, some 2] := by decide
  have hall : ∀ x ∈ ScoreTools.fillna0 [some 2, some 2], x = 2 := by decide
  have hd : ScoreTools.log1p_safe ((2 : ℚ) : ℝ) ∈
      (ScoreTools.fillna0 [some 2, some 2]).map (fun q : ℚ => ScoreTools.log1p_safe (q : ℝ)) := by
    simp [ScoreTools.fillna0]
  have hdall : ∀ y ∈ (ScoreTools.fillna0 [some 2, some 2]).map
      (fun q : ℚ => ScoreTools.log1p_safe (q : ℝ)), y = ScoreTools.log1p_safe ((2 : ℚ) : ℝ) := by
    simp [ScoreTools.fillna0]
  exact ⟨(h.1 hc hall).1, (h.1 hc hall).2, h.2 hd hdall⟩

/-- C6, counterexample: on the empty input column the v1 normalizer does
not return a sequence at all — `np.nanmin` raises `ValueError` on a
zero-size array (the v2 normalizer returns the empty output instead). -/
theorem normalize_series_empty_none :
    ScoreTools.normalize_series "minmax" ([] : List (Option ℚ)) = none := rfl

/-- C6, amended: for every non-empty input column (any column at all for
the v2 normalizer, whose pandas min/max tolerate emptiness), every
normalization strategy returns a same-length sequence with every element
in [0, 1]; the v1 strategies raise on the empty column. -/
theorem normalize_series_bounds :
    ∀ (s : List (Option ℚ)) (method : String),
    (s ≠ [] → ∃ out : List ℝ, ScoreTools.normalize_series method s = some out ∧
      out.length = s.length ∧ ∀ x ∈ out, 0 ≤ x ∧ x ≤ 1) ∧
    ((ScoreToolsV2.normalize_series_v2 s).length = s.length ∧
      ∀ x ∈ ScoreToolsV2.normalize_series_v2 s, 0 ≤ x ∧ x ≤ 1) := by
  intro s method
  have hlen : (ScoreTools.fillna0 s).length = s.length := List.length_map _ _
  constructor
  · intro hs
    have hne : ScoreTools.fillna0 s ≠ [] := by
      intro h
      exact hs (List.map_eq_nil_iff.mp h)
    have key : ∀ f : ℚ → ℝ, ∃ out : List ℝ,
        minmaxScale ((ScoreTools.fillna0 s).map f) = some out ∧
        out.length = s.length ∧ ∀ x ∈ out, 0 ≤ x ∧ x ≤ 1 := by
      intro f
      obtain ⟨out, ho, hl, hb⟩ := minmaxScale_nonempty_spec ((ScoreTools.fillna0 s).map f)
        (fun h => hne (List.map_eq_nil_iff.mp h))
      exact ⟨out, ho, by rw [hl, List.length_map, hlen], hb⟩
    unfold ScoreTools.normalize_series
    split_ifs
    · exact key _
    · exact key _
    · exact key _
  · constructor
    · rw [ScoreToolsV2.normalize_series_v2, ScoreToolsV2.minmaxV2_length]
      exact List.length_map _ _
    · exact ScoreToolsV2.minmaxV2_bounds _

/-- C6, witness: a two-element column is in bounds under both scorers. -/
theorem normalize_series_bounds_witness :
    (∃ out : List ℝ, ScoreTools.normalize_series "minmax" [some 1, some 3] = some out ∧
      out.length = 2 ∧ ∀ x ∈ out, 0 ≤ x ∧ x ≤ 1) ∧
    ((ScoreToolsV2.normalize_series_v2 [some 1, some 3]).length = 2 ∧
      ∀ x ∈ ScoreToolsV2.normalize_series_v2 [some 1, some 3], 0 ≤ x ∧ x ≤ 1) := by
  have h := normalize_series_bounds [some 1, some 3] "minmax"
  exact ⟨h.1 (by decide), h.2⟩

/-- C8: the domain classifier always returns one of the five labels; any
text whose lowercase form contains "protein" is classified "bio"
(regardless of what else, e.g. "deep", it contains, since bio is checked
first); text matching no keyword of any list is classified "other". -/
theorem detect_domain_cases :
    ∀ text : String,
    ScoreToolsV2.detect_domain text ∈ (["bio", "chem", "material", "ml", "other"] : List String) ∧
    (substrB "protein" (pyLower text) = true → ScoreToolsV2.detect_domain text = "bio") ∧
    ((ScoreToolsV2.bioKeywords ++ ScoreToolsV2.chemKeywords ++ ScoreToolsV2.materialKeywords
        ++ ScoreToolsV2.mlKeywords).all
        (fun k => !(substrB k (pyLower text))) = true →
      ScoreToolsV2.detect_domain text = "other") := by
  intro text
  refine ⟨?_, ?_, ?_⟩
  · unfold ScoreToolsV2.detect_domain
    split_ifs <;> simp
  · intro h
    have hb : ScoreToolsV2.bioKeywords.any (fun k => substrB k (pyLower text)) = true :=
      List.any_eq_true.mpr ⟨"protein", by simp [ScoreToolsV2.bioKeywords], h⟩
    simp [ScoreToolsV2.detect_domain, hb]
  · intro h
    rw [List.all_eq_true] at h
    have hfalse : ∀ ks : List String,
        (∀ k ∈ ks, k ∈ ScoreToolsV2.bioKeywords ++ ScoreToolsV2.chemKeywords ++
          ScoreToolsV2.materialKeywords ++ ScoreToolsV2.mlKeywords) →
        ks.any (fun k => substrB k (pyLower text)) = false := by
      intro ks hks
      rw [List.any_eq_false]
      intro k hk
      have := h k (hks k hk)
      simp at this
      simp [this]
    have hb := hfalse ScoreToolsV2.bioKeywords
      (fun k hk => List.mem_append.mpr (Or.inl (List.mem_append.mpr (Or.inl
        (List.mem_append.mpr (Or.inl hk))))))
    have hc := hfalse ScoreToolsV2.chemKeywords
      (fun k hk => List.mem_append.mpr (Or.inl (List.mem_append.mpr (Or.inl
        (List.mem_append.mpr (Or.inr hk))))))
    have hm := hfalse ScoreToolsV2.materialKeywords
      (fun k hk => List.mem_append.mpr (Or.inl (List.mem_append.mpr (Or.inr hk))))
    have hml := hfalse ScoreToolsV2.mlKeywords
      (fun k hk => List.mem_append.mpr (Or.inr hk))
    simp [ScoreToolsV2.detect_domain, hb, hc, hm, hml]

/-- C8, witness: "Protein deep model" contains both "protein" and "deep"
after lowercasing and is classified "bio"; "xyzzy" matches nothing and is
classified "other". -/
theorem detect_domain_cases_witness :
    substrB "deep" (pyLower "Protein deep model") = true ∧
    ScoreToolsV2.detect_domain "Protein deep model" = "bio" ∧
    ScoreToolsV2.detect_domain "xyzzy" = "other" :=
  ⟨by decide, (detect_domain_cases "Protein deep model").2.1 (by decide),
   (detect_domain_cases "xyzzy").2.2 (by decide)⟩

/-! ### Dictionary lemmas for parse_weights -/

theorem lookupW_cons (p : String × ℚ) (d : List (String × ℚ)) (k : String) :
    lookupW (p :: d) k = if p.1 = k then some p.2 else lookupW d k := by
  by_cases h : p.1 = k
  · have hb : (p.1 == k) = true := by simp [h]
    simp [lookupW, List.find?, hb, h]
  · have hb : (p.1 == k) = false := by simp [h]
    simp [lookupW, List.find?, hb, h]

theorem lookupW_dictInsert_ne (d : List (String × ℚ)) (kk k : String) (v : ℚ)
    (h : kk ≠ k) : lookupW (dictInsert d kk v) k = lookupW d k := by
  induction d with
  | nil => simp [dictInsert, lookupW_cons, h, lookupW]
  | cons p rest ih =>
    by_cases hp : p.1 = kk
    · rw [dictInsert, if_pos hp, lookupW_cons, lookupW_cons, if_neg h, if_neg (hp ▸ h)]
    · rw [dictInsert, if_neg hp, lookupW_cons, lookupW_cons, ih]

theorem lookupW_dictSetdefault_ne (d : List (String × ℚ)) (kk k : String) (v : ℚ)
    (h : kk ≠ k) : lookupW (dictSetdefault d kk v) k = lookupW d k := by
  induction d with
  | nil => simp [dictSetdefault, lookupW_cons, h, lookupW]
  | cons p rest ih =>
    by_cases hp : p.1 = kk
    · rw [dictSetdefault, if_pos hp]
    · rw [dictSetdefault, if_neg hp, lookupW_cons, lookupW_cons, ih]

theorem lookupW_dictSetdefault_self (d : List (String × ℚ)) (k : String) (v : ℚ) :
    lookupW (dictSetdefault d k v) k = some ((lookupW d k).getD v) := by
  induction d with
  | nil => simp [dictSetdefault, lookupW_cons, lookupW]
  | cons p rest ih =>
    by_cases hp : p.1 = k
    · rw [dictSetdefault, if_pos hp, lookupW_cons, if_pos hp]
      rfl
    · rw [dictSetdefault, if_neg hp, lookupW_cons, if_neg hp, lookupW_cons, if_neg hp, ih]

theorem lookupW_foldl_insert (ov : List (String × ℚ)) :
    ∀ (acc : List (String × ℚ)) (k : String), k ∉ ov.map Prod.fst →
    lookupW (ov.foldl (fun d p => dictInsert d p.1 p.2) acc) k = lookupW acc k := by
  induction ov with
  | nil => intro acc k _; rfl
  | cons p rest ih =>
    intro acc k hk
    simp only [List.map_cons, List.mem_cons, not_or] at hk
    obtain ⟨h1, h2⟩ := hk
    rw [List.foldl_cons, ih (dictInsert acc p.1 p.2) k h2,
      lookupW_dictInsert_ne _ _ _ _ (fun h => h1 h.symm)]

theorem lookupW_foldl_setdefault_ne (ds : List (String × ℚ)) :
    ∀ (acc : List (String × ℚ)) (k : String), (∀ p ∈ ds, p.1 ≠ k) →
    lookupW (ds.foldl (fun d p => dictSetdefault d p.1 p.2) acc) k = lookupW acc k := by
  induction ds with
  | nil => intro acc k _; rfl
  | cons p rest ih =>
    intro acc k hk
    rw [List.foldl_cons, ih _ k (fun q hq => hk q (List.mem_cons_of_mem _ hq)),
      lookupW_dictSetdefault_ne _ _ _ _ (hk p (List.mem_cons_self _ _))]

theorem lookupW_foldl_setdefault_mem (ds : List (String × ℚ)) :
    ∀ (acc : List (String × ℚ)) (k : String) (v : ℚ), (k, v) ∈ ds →
    (ds.map Prod.fst).Nodup →
    lookupW (ds.foldl (fun d p => dictSetdefault d p.1 p.2) acc) k =
      some ((lookupW acc k).getD v) := by
  induction ds with
  | nil => intro acc k v h _; cases h
  | cons p rest ih =>
    intro acc k v hmem hnd
    rw [List.map_cons, List.nodup_cons] at hnd
    obtain ⟨hpnotin, hndrest⟩ := hnd
    rw [List.foldl_cons]
    rcases List.mem_cons.mp hmem with heq | hrest
    · have hp1 : p.1 = k := by rw [← heq]
      have hp2 : p.2 = v := by rw [← heq]
      have hk : ∀ q ∈ rest, q.1 ≠ k := by
        intro q hq h
        exact hpnotin (hp1 ▸ h ▸ List.mem_map.mpr ⟨q, hq, rfl⟩)
      rw [lookupW_foldl_setdefault_ne rest _ k hk, ← hp1, ← hp2,
        lookupW_dictSetdefault_self]
    · have hpk : p.1 ≠ k := by
        intro h
        exact hpnotin (h ▸ List.mem_map.mpr ⟨(k, v), hrest, rfl⟩)
      rw [ih (dictSetdefault acc p.1 p.2) k v hrest hndrest,
        lookupW_dictSetdefault_ne _ _ _ _ hpk]

theorem sum_map_snd_div (l : List (String × ℚ)) (t : ℚ) :
    ((l.map (fun p => (p.1, p.2 / t))).map Prod.snd).sum = (l.map Prod.snd).sum / t := by
  induction l with
  | nil => simp
  | cons p rest ih =>
    rw [List.map_cons, List.map_cons, List.map_cons, List.sum_cons, List.sum_cons, ih, add_div]

/-- C9, counterexample: in the v1 scorer an all-missing staleness column is
left missing — the fill value is the NaN median and `fillna(NaN)` is a
no-op, so the neutral constant 180 is never applied there. -/
theorem stale_fill_v1_all_missing :
    ScoreTools.stale_fill [none, none] = [none, none] ∧
    ScoreTools.stale_fill [none, none] ≠ [some 180, some 180] :=
  ⟨rfl, by decide⟩

/-- C9, amended: both scorers fill missing staleness values with the
column median over the non-missing values; when every value is missing,
the v2 scorer fills every cell with the neutral constant 180, while the v1
scorer leaves the column unchanged (all missing). -/
theorem stale_fill_policy :
    ∀ (s : List (Option ℚ)) (i : ℕ) (v : ℚ),
    (s[i]? = some (some v) →
      (ScoreToolsV2.fillMedianOr 180 s)[i]? = some v ∧
      (ScoreTools.stale_fill s)[i]? = some (some v)) ∧
    (s[i]? = some none → s.filterMap id ≠ [] →
      (ScoreToolsV2.fillMedianOr 180 s)[i]? = some (median (s.filterMap id)) ∧
      (ScoreTools.stale_fill s)[i]? = some (some (median (s.filterMap id)))) ∧
    ((∀ o ∈ s, o = none) →
      ScoreToolsV2.fillMedianOr 180 s = List.replicate s.length (180 : ℚ) ∧
      ScoreTools.stale_fill s = s) := by
  intro s i v
  refine ⟨?_, ?_, ?_⟩
  · intro hi
    rcases hfm : s.filterMap id with _ | ⟨q, qs⟩
    · constructor
      · simp [ScoreToolsV2.fillMedianOr, hfm, List.getElem?_map, hi]
      · simp [ScoreTools.stale_fill, hfm, hi]
    · constructor
      · simp [ScoreToolsV2.fillMedianOr, hfm, List.getElem?_map, hi]
      · simp [ScoreTools.stale_fill, hfm, List.getElem?_map, hi]
  · intro hi hne
    rcases hfm : s.filterMap id with _ | ⟨q, qs⟩
    · exact absurd hfm hne
    · constructor
      · simp [ScoreToolsV2.fillMedianOr, hfm, List.getElem?_map, hi]
      · simp [ScoreTools.stale_fill, hfm, List.getElem?_map, hi]
  · intro hall
    have hfm : s.filterMap id = [] := by
      rw [List.filterMap_eq_nil_iff]
      intro o ho
      rw [hall o ho]
      rfl
    constructor
    · rw [ScoreToolsV2.fillMedianOr]
      simp only [hfm]
      exact map_eq_replicate _ _ s (fun o ho => by rw [hall o ho]; rfl)
    · rw [ScoreTools.stale_fill, hfm]

/-- C9, witness: in the column [4, missing] the missing cell is filled with
the median of the present values in both scorers, and the all-missing
column [missing] becomes [180] in v2 while staying missing in v1. -/
theorem stale_fill_policy_witness :
    (ScoreToolsV2.fillMedianOr 180 [some 4, none])[1]? =
      some (median ([some 4, none].filterMap id)) ∧
    (ScoreTools.stale_fill [some 4, none])[1]? =
      some (some (median ([some 4, none].filterMap id))) ∧
    ScoreToolsV2.fillMedianOr 180 [none] = [(180 : ℚ)] ∧
    ScoreTools.stale_fill ([none] : List (Option ℚ)) = [none] := by
  have h := stale_fill_policy [some 4, none] 1 0
  have h2 := stale_fill_policy [none] 0 0
  have ha := (h.2.1 (by rfl) (by decide))
  have hb := h2.2.2 (by decide)
  exact ⟨ha.1, ha.2, hb.1, hb.2⟩

/-- C7, counterexample: overriding every weight to 0 gives a merged total
of 0; the source divides by the fallback 1.0, so the resulting weights sum
to 0, not 1 — the re-normalization promise fails for this override map. -/
theorem parse_weights_zero_total :
    ((ScoreTools.parse_weights
      [("stars", 0), ("commits", 0), ("contributors", 0), ("issues", 0),
        ("staleness", 0)]).map Prod.snd).sum = 0 ∧
    ((ScoreTools.parse_weights
      [("stars", 0), ("commits", 0), ("contributors", 0), ("issues", 0),
        ("staleness", 0)]).map Prod.snd).sum ≠ 1 := by
  have hm : ScoreTools.merged_weights
      [("stars", 0), ("commits", 0), ("contributors", 0), ("issues", 0), ("staleness", 0)] =
      [("stars", 0), ("commits", 0), ("contributors", 0), ("issues", 0), ("staleness", 0)] := by
    simp [ScoreTools.merged_weights, ScoreTools.default_weights, dictInsert, dictSetdefault]
  simp only [ScoreTools.parse_weights, hm]
  norm_num

/-- C7, amended: omitted keys retain their default weights in the merged
dict, and the weight set is re-normalized to sum to 1.0 whenever the
merged total is nonzero (a zero total falls back to the divisor 1.0 and
the weights then sum to 0); in particular, for the override map
stars = 1.0 the re-normalized vector sums to 1 and the stars share 4/7
exceeds the default 0.25. -/
theorem parse_weights_spec :
    ∀ (ov : List (String × ℚ)) (k : String) (v : ℚ),
    ((k, v) ∈ ScoreTools.default_weights → k ∉ ov.map Prod.fst →
      lookupW (ScoreTools.merged_weights ov) k = some v) ∧
    (((ScoreTools.merged_weights ov).map Prod.snd).sum ≠ 0 →
      ((ScoreTools.parse_weights ov).map Prod.snd).sum = 1) ∧
    (((ScoreTools.parse_weights [("stars", 1)]).map Prod.snd).sum = 1 ∧
      lookupW (ScoreTools.parse_weights [("stars", 1)]) "stars" = some (4 / 7) ∧
      (1 / 4 : ℚ) < 4 / 7) := by
  intro ov k v
  refine ⟨?_, ?_, ?_, ?_, ?_⟩
  · intro hmem hnotin
    have hnodup : (ScoreTools.default_weights.map Prod.fst).Nodup := by decide
    rw [ScoreTools.merged_weights,
      lookupW_foldl_setdefault_mem ScoreTools.default_weights _ k v hmem hnodup,
      lookupW_foldl_insert ov [] k hnotin]
    rfl
  · intro htot
    simp only [ScoreTools.parse_weights]
    rw [sum_map_snd_div, if_neg htot, div_self htot]
  · have hm : ScoreTools.merged_weights [("stars", 1)] =
        [("stars", 1), ("commits", 0.25), ("contributors", 0.25),
         ("issues", 0.15), ("staleness", 0.10)] := by
      simp [ScoreTools.merged_weights, ScoreTools.default_weights, dictInsert, dictSetdefault]
    simp only [ScoreTools.parse_weights, hm]
    norm_num
  · have hm : ScoreTools.merged_weights [("stars", 1)] =
        [("stars", 1), ("commits", 0.25), ("contributors", 0.25),
         ("issues", 0.15), ("staleness", 0.10)] := by
      simp [ScoreTools.merged_weights, ScoreTools.default_weights, dictInsert, dictSetdefault]
    simp only [ScoreTools.parse_weights, hm]
    have hs : ((([("stars", (1 : ℚ)), ("commits", 0.25), ("contributors", 0.25),
        ("issues", 0.15), ("staleness", 0.10)]).map Prod.snd).sum) = 7 / 4 := by
      norm_num
    rw [hs]
    norm_num [lookupW, List.find?]
  · norm_num

/-- C7, witness: for the override map stars = 1.0 the omitted key
"commits" keeps its default 0.25 in the merged dict, the re-normalized
vector sums to 1, and the stars share exceeds 0.25. -/
theorem parse_weights_spec_witness :
    lookupW (ScoreTools.merged_weights [("stars", 1)]) "commits" = some 0.25 ∧
    ((ScoreTools.parse_weights [("stars", 1)]).map Prod.snd).sum = 1 ∧
    (1 / 4 : ℚ) < 4 / 7 := by
  have h := parse_weights_spec [("stars", 1)] "commits" 0.25
  exact ⟨h.1 (by simp [ScoreTools.default_weights]) (by decide), h.2.2.1, h.2.2.2.2⟩

/-! ### Helper lemmas for the fusion stage -/

theorem maxQ_replicate (n : ℕ) (c : ℚ) :
    MergeBench.maxQ (List.replicate (n + 1) c) = some c := by
  simp only [List.replicate_succ, MergeBench.maxQ]
  exact congrArg some (foldl_max_const _ _ (fun y hy => List.eq_of_mem_replicate hy))

theorem minQ_replicate (n : ℕ) (c : ℚ) :
    MergeBench.minQ (List.replicate (n + 1) c) = some c := by
  simp only [List.replicate_succ, MergeBench.minQ]
  exact congrArg some (foldl_min_const _ _ (fun y hy => List.eq_of_mem_replicate hy))

/-- C3: a candidate matching no scored benchmark row is merged with the
single filled value bench_score = 0.0 and final score exactly
alpha · composite (the defaults being alpha = 0.7, beta = 0.3). -/
theorem bench_miss_zero :
    ∀ (alpha beta : ℚ) (b : List MergeBench.BenchRow) (c : MergeBench.Cand),
    (∀ p ∈ MergeBench.bench_score_rows (MergeBench.nonSkipped b),
      p.1 ≠ MergeBench.repo_to_key c.repo) →
    (MergeBench.fuseOne alpha beta (MergeBench.bench_score_rows (MergeBench.nonSkipped b)) c =
      [(c.repo, 0, alpha * c.composite_v2)] ∧
    MergeBench.alpha_repo_default = 0.7 ∧ MergeBench.beta_bench_default = 0.3) := by
  intro alpha beta b c hmiss
  refine ⟨?_, rfl, rfl⟩
  have hfil : (MergeBench.bench_score_rows (MergeBench.nonSkipped b)).filter
      (fun p => p.1 == MergeBench.repo_to_key c.repo) = [] := by
    rw [List.filter_eq_nil_iff]
    intro p hp
    simp only [beq_iff_eq]
    exact hmiss p hp
  simp [MergeBench.fuseOne, hfil]

/-- C3, witness: a candidate whose only potential match is a skipped
benchmark record gets bench 0 and final 0.7 · composite. -/
theorem bench_miss_zero_witness :
    MergeBench.fuseOne 0.7 0.3
      (MergeBench.bench_score_rows (MergeBench.nonSkipped
        [{ name := "x", passed := some true, skipped := true, elapsed_s := some 5 }]))
      { repo := "owner/Repo", composite_v2 := 1 / 2 } =
      [("owner/Repo", 0, 0.7 * (1 / 2))] ∧
    MergeBench.alpha_repo_default = 0.7 := by
  have hn : MergeBench.nonSkipped
      [{ name := "x", passed := some true, skipped := true, elapsed_s := some 5 }] = [] := by
    decide
  have hbs : MergeBench.bench_score_rows (MergeBench.nonSkipped
      [{ name := "x", passed := some true, skipped := true, elapsed_s := some 5 }]) = [] := by
    rw [hn]
    rfl
  have h := bench_miss_zero 0.7 0.3
    [{ name := "x", passed := some true, skipped := true, elapsed_s := some 5 }]
    { repo := "owner/Repo", composite_v2 := 1 / 2 }
    (fun p hp => absurd (hbs ▸ hp) (List.not_mem_nil p))
  exact ⟨h.1, h.2.1⟩

/-- C4, counterexample: two non-skipped records with the same positive
elapsed time 2.0 both receive latency_score 1.0, not 0.0 — the degenerate
branch uses denominator 1.0 and numerator 0, giving 1 - 0 = 1. -/
theorem latency_equal_counterexample :
    MergeBench.latency_scores (MergeBench.nonSkipped
      [{ name := "a", passed := some true, skipped := false, elapsed_s := some 2 },
       { name := "b", passed := some false, skipped := false, elapsed_s := some 2 }]) =
      [1, 1] ∧
    MergeBench.latency_scores (MergeBench.nonSkipped
      [{ name := "a", passed := some true, skipped := false, elapsed_s := some 2 },
       { name := "b", passed := some false, skipped := false, elapsed_s := some 2 }]) ≠
      List.replicate 2 (0 : ℚ) := by
  have heval : MergeBench.latency_scores (MergeBench.nonSkipped
      [{ name := "a", passed := some true, skipped := false, elapsed_s := some 2 },
       { name := "b", passed := some false, skipped := false, elapsed_s := some 2 }]) =
      [1, 1] := by
    simp [MergeBench.latency_scores, MergeBench.nonSkipped, MergeBench.maxQ, MergeBench.minQ]
  refine ⟨heval, ?_⟩
  rw [heval]
  decide

/-- C4, amended: when every non-skipped record carries the same elapsed
time c, every latency_score is 1.0 if c is positive and 0.0 if c is not
(the claimed all-0.0 outcome occurs only in the non-positive case). -/
theorem latency_equal_value :
    ∀ (b : List MergeBench.BenchRow) (c : ℚ),
    MergeBench.nonSkipped b ≠ [] →
    (∀ r ∈ MergeBench.nonSkipped b, r.elapsed_s = some c) →
    MergeBench.latency_scores (MergeBench.nonSkipped b) =
      List.replicate (MergeBench.nonSkipped b).length (if 0 < c then 1 else 0) := by
  intro b c hne hall
  set bx := MergeBench.nonSkipped b with hbxdef
  obtain ⟨r0, rest, hcons⟩ : ∃ r0 rest, bx = r0 :: rest := by
    cases hbxl : bx with
    | nil => exact absurd hbxl hne
    | cons a l => exact ⟨a, l, rfl⟩
  have hlen : bx.length = rest.length + 1 := by rw [hcons]; rfl
  have hmap : bx.map (fun r => (r.elapsed_s).orElse
      (fun _ => MergeBench.maxQ (bx.filterMap (fun r => r.elapsed_s)))) =
      List.replicate bx.length (some c) :=
    map_eq_replicate _ _ bx (fun r hr => by rw [hall r hr]; rfl)
  have hfm2 : (List.replicate bx.length (some c)).filterMap id =
      List.replicate bx.length c := by
    have := filterMap_eq_replicate id c (List.replicate bx.length (some c))
      (fun o ho => by rw [List.eq_of_mem_replicate ho]; rfl)
    rwa [List.length_replicate] at this
  simp only [MergeBench.latency_scores]
  rw [hmap, hfm2, hlen, maxQ_replicate, minQ_replicate]
  dsimp only
  simp only [Option.getD_some]
  by_cases hc : 0 < c
  · rw [if_pos hc, if_pos hc, List.map_replicate]
    congr 1
    simp
  · rw [if_neg hc, if_neg hc]

/-- C4, witness: a two-record pool with equal elapsed 2.0 gets all-1.0
latency scores, and a one-record pool with elapsed 0.0 gets 0.0. -/
theorem latency_equal_value_witness :
    MergeBench.latency_scores (MergeBench.nonSkipped
      [{ name := "a", passed := some true, skipped := false, elapsed_s := some (2 : ℚ) },
       { name := "b", passed := some false, skipped := false, elapsed_s := some 2 }]) =
      List.replicate 2 (if (0 : ℚ) < 2 then 1 else 0) ∧
    MergeBench.latency_scores (MergeBench.nonSkipped
      [{ name := "c", passed := none, skipped := false, elapsed_s := some (0 : ℚ) }]) =
      List.replicate 1 (if (0 : ℚ) < 0 then 1 else 0) := by
  constructor
  · exact latency_equal_value
      [{ name := "a", passed := some true, skipped := false, elapsed_s := some (2 : ℚ) },
       { name := "b", passed := some false, skipped := false, elapsed_s := some 2 }] 2
      (by decide) (by decide)
  · exact latency_equal_value
      [{ name := "c", passed := none, skipped := false, elapsed_s := some (0 : ℚ) }] 0
      (by decide) (by decide)

/-- C10: a benchmark record whose JSON lacks the "skipped" field loads as
skipped = false with passed = none (even when its "passed" field is true,
since the identity test with False fails for None); it therefore lands in
the non-skipped pool with pass_score 0.0 and its elapsed time enters the
latency pool. -/
theorem load_bench_missing_skipped :
    ∀ (it : MergeBench.BenchItem) (b : List MergeBench.BenchRow) (t : ℚ),
    it.skipped = none →
    (MergeBench.loadOne it =
      { name := pyStrip it.name, passed := none, skipped := false,
        elapsed_s := it.elapsed_s } ∧
    MergeBench.pass_score (MergeBench.loadOne it) = 0 ∧
    (MergeBench.loadOne it ∈ b → MergeBench.loadOne it ∈ MergeBench.nonSkipped b) ∧
    (MergeBench.loadOne it ∈ b → it.elapsed_s = some t →
      t ∈ (MergeBench.nonSkipped b).filterMap (fun r => r.elapsed_s))) := by
  intro it b t hsk
  have h1 : MergeBench.loadOne it =
      { name := pyStrip it.name, passed := none, skipped := false,
        elapsed_s := it.elapsed_s } := by
    simp [MergeBench.loadOne, hsk]
  refine ⟨h1, ?_, ?_, ?_⟩
  · rw [h1]
    rfl
  · intro hb
    refine List.mem_filter.mpr ⟨hb, ?_⟩
    rw [h1]
    rfl
  · intro hb ht
    refine List.mem_filterMap.mpr ⟨MergeBench.loadOne it,
      List.mem_filter.mpr ⟨hb, by rw [h1]; rfl⟩, ?_⟩
    rw [h1]
    exact ht

/-- C10, witness: the record "toolA" with passed = true, elapsed 2.0 and no
"skipped" field loads as non-skipped with passed = none, scores 0, and
contributes its elapsed time. -/
theorem load_bench_missing_skipped_witness :
    MergeBench.loadOne itemNoSkipped =
      { name := "toolA", passed := none, skipped := false, elapsed_s := some 2 } ∧
    MergeBench.pass_score (MergeBench.loadOne itemNoSkipped) = 0 ∧
    MergeBench.loadOne itemNoSkipped ∈
      MergeBench.nonSkipped [MergeBench.loadOne itemNoSkipped] ∧
    (2 : ℚ) ∈ (MergeBench.nonSkipped
      [MergeBench.loadOne itemNoSkipped]).filterMap (fun r => r.elapsed_s) := by
  have h := load_bench_missing_skipped itemNoSkipped
    [MergeBench.loadOne itemNoSkipped] 2 rfl
  exact ⟨h.1, h.2.1, h.2.2.1 (List.mem_singleton_self _),
    h.2.2.2 (List.mem_singleton_self _) rfl⟩


/-- C2: every row of the v2 scored output satisfies
composite_v2 = (0.20·stars_n + 0.15·commits_n + 0.15·contributors_n +
0.10·issues_n + 0.10·staleness_n + 0.15·readme_score + 0.15·ci_test_score)
· domain_weight, where the domain weight comes from the fixed map
bio = 1, chem = 0.95, material = 0.9, ml = 1.05, other = 1 and any label
outside the map weighs 1. -/
theorem composite_v2_formula :
    ∀ (rows : List ScoreToolsV2.RowV2),
    (∀ i, i < rows.length →
      ScoreToolsV2.scoredOf rows i ∈ ScoreToolsV2.compute_scores rows) ∧
    (∀ r ∈ ScoreToolsV2.compute_scores rows,
      r.composite_v2 = (0.20 * r.stars_n + 0.15 * r.commits_n + 0.15 * r.contributors_n +
        0.10 * r.issues_n + 0.10 * r.staleness_n + 0.15 * r.readme_score +
        0.15 * r.ci_test_score) * r.domain_weight ∧
      r.domain_weight = ScoreToolsV2.domainWeight r.domain) ∧
    (ScoreToolsV2.domainWeight "bio" = 1 ∧ ScoreToolsV2.domainWeight "chem" = 0.95 ∧
      ScoreToolsV2.domainWeight "material" = 0.9 ∧ ScoreToolsV2.domainWeight "ml" = 1.05 ∧
      ScoreToolsV2.domainWeight "other" = 1) ∧
    (∀ d : String, d ∉ ScoreToolsV2.domainWeightPairs.map Prod.fst →
      ScoreToolsV2.domainWeight d = 1) := by
  intro rows
  have hperm := List.perm_insertionSort
    (fun a b : ScoreToolsV2.ScoredRow => b.composite_v2 ≤ a.composite_v2)
    ((List.range rows.length).map (ScoreToolsV2.scoredOf rows))
  refine ⟨?_, ?_, ?_, ?_⟩
  · intro i hi
    exact hperm.mem_iff.mpr (List.mem_map.mpr ⟨i, List.mem_range.mpr hi, rfl⟩)
  · intro r hr
    have hr2 : r ∈ (List.range rows.length).map (ScoreToolsV2.scoredOf rows) :=
      hperm.mem_iff.mp hr
    rcases List.mem_map.mp hr2 with ⟨i, _, rfl⟩
    exact ⟨rfl, rfl⟩
  · have q1 : ("bio" == "chem") = false := by decide
    have q2 : ("bio" == "material") = false := by decide
    have q3 : ("chem" == "material") = false := by decide
    have q4 : ("bio" == "ml") = false := by decide
    have q5 : ("chem" == "ml") = false := by decide
    have q6 : ("material" == "ml") = false := by decide
    have q7 : ("bio" == "other") = false := by decide
    have q8 : ("chem" == "other") = false := by decide
    have q9 : ("material" == "other") = false := by decide
    have q10 : ("ml" == "other") = false := by decide
    refine ⟨?_, ?_, ?_, ?_, ?_⟩ <;>
      simp [ScoreToolsV2.domainWeight, ScoreToolsV2.domainWeightPairs, lookupW,
        List.find?, q1, q2, q3, q4, q5, q6, q7, q8, q9, q10]
    all_goals norm_num
  · intro d hd
    simp only [ScoreToolsV2.domainWeightPairs, List.map_cons, List.map_nil,
      List.mem_cons, List.not_mem_nil, or_false, not_or] at hd
    obtain ⟨h1, h2, h3, h4, h5⟩ := hd
    have b1 : ("bio" == d) = false := beq_eq_false_iff_ne.mpr (fun h => h1 h.symm)
    have b2 : ("chem" == d) = false := beq_eq_false_iff_ne.mpr (fun h => h2 h.symm)
    have b3 : ("material" == d) = false := beq_eq_false_iff_ne.mpr (fun h => h3 h.symm)
    have b4 : ("ml" == d) = false := beq_eq_false_iff_ne.mpr (fun h => h4 h.symm)
    have b5 : ("other" == d) = false := beq_eq_false_iff_ne.mpr (fun h => h5 h.symm)
    simp [ScoreToolsV2.domainWeight, ScoreToolsV2.domainWeightPairs, lookupW, List.find?,
      b1, b2, b3, b4, b5]

/-- C2, witness: on the single row `rowW` the pipeline produces exactly
`scoredW`, which satisfies the composite formula, and the off-map label
"physics" weighs 1. -/
theorem composite_v2_formula_witness :
    ScoreToolsV2.compute_scores [ScoreToolsV2.rowW] = [ScoreToolsV2.scoredW] ∧
    ScoreToolsV2.scoredW.composite_v2 =
      (0.20 * ScoreToolsV2.scoredW.stars_n + 0.15 * ScoreToolsV2.scoredW.commits_n +
        0.15 * ScoreToolsV2.scoredW.contributors_n + 0.10 * ScoreToolsV2.scoredW.issues_n +
        0.10 * ScoreToolsV2.scoredW.staleness_n + 0.15 * ScoreToolsV2.scoredW.readme_score +
        0.15 * ScoreToolsV2.scoredW.ci_test_score) * ScoreToolsV2.scoredW.domain_weight ∧
    ScoreToolsV2.domainWeight "physics" = 1 := by
  have h := composite_v2_formula [ScoreToolsV2.rowW]
  have hst : ScoreToolsV2.starsN [ScoreToolsV2.rowW] = [0] := by decide
  have hcm : ScoreToolsV2.commitsN [ScoreToolsV2.rowW] = [0] := by decide
  have hcn : ScoreToolsV2.contributorsN [ScoreToolsV2.rowW] = [0] := by decide
  have hiss : ScoreToolsV2.issuesN [ScoreToolsV2.rowW] = [0] := by
    simp [ScoreToolsV2.issuesN, ScoreToolsV2.fillMedianOr, ScoreToolsV2.rowW,
      ScoreToolsV2.minmaxV2, minmaxCore]
  have hstal : ScoreToolsV2.stalenessN [ScoreToolsV2.rowW] = [1] := by
    simp [ScoreToolsV2.stalenessN, ScoreToolsV2.fillMedianOr, ScoreToolsV2.rowW,
      ScoreToolsV2.minmaxV2, minmaxCore]
  have hnr : pyStrip "r" ≠ "" := by decide
  have hrd : ScoreToolsV2.readmeScores [ScoreToolsV2.rowW] = [2 / 25] := by
    simp [ScoreToolsV2.readmeScores, ScoreToolsV2.rowReadmeScore, ScoreToolsV2.rowW, hnr,
      ScoreToolsV2.readme_scores_empty_eval.2]
  have hdm : ScoreToolsV2.domains [ScoreToolsV2.rowW] = ["bio"] := by decide
  have hw : ScoreToolsV2.domainWeight "bio" = 1 := h.2.2.1.1
  have h0 : ScoreToolsV2.scoredOf [ScoreToolsV2.rowW] 0 = ScoreToolsV2.scoredW := by
    simp only [ScoreToolsV2.scoredOf, hst, hcm, hcn, hiss, hstal, hrd, hdm,
      ScoreToolsV2.ciScores, hw]
    simp [ScoreToolsV2.scoredW, ScoreToolsV2.rowW, hw]
    all_goals norm_num
  have heval : ScoreToolsV2.compute_scores [ScoreToolsV2.rowW] = [ScoreToolsV2.scoredW] := by
    simp only [ScoreToolsV2.compute_scores]
    have hrange : (List.range [ScoreToolsV2.rowW].length).map
        (ScoreToolsV2.scoredOf [ScoreToolsV2.rowW]) = [ScoreToolsV2.scoredW] := by
      have hr1 : List.range 1 = [0] := by decide
      simp [hr1, h0]
    rw [hrange]
    simp [List.insertionSort, List.orderedInsert]
  have hmem : ScoreToolsV2.scoredW ∈ ScoreToolsV2.compute_scores [ScoreToolsV2.rowW] := by
    rw [heval]
    exact List.mem_singleton_self _
  exact ⟨heval, (h.2.1 ScoreToolsV2.scoredW hmem).1, h.2.2.2 "physics" (by decide)⟩
